import Mathlib

/-!
# Verification of `dist-rust` (Normal and Student's t distributions)

This file embeds the numerical code of the `dist-rust` repository
(`src/erf.rs`, `src/gamma.rs`, `src/normal.rs`, `src/students_t.rs`,
`src/math.rs`) into Lean 4 and proves or refutes the frozen claims about it.

The embedding models an IEEE-754 double as the type `F`: either NaN, one of
the two infinities, or a finite value carried as an exact real number.
Operations on `F` follow the IEEE-754 special-value rules (NaN propagation,
signed infinities, `∞ - ∞ = NaN`, `∞/∞ = NaN`, `0/0 = NaN`, `log 0 = -∞`,
`sqrt` of a negative is NaN, ...); arithmetic on finite values is exact
(rounding and finite overflow are idealized away, except where a definition
explicitly models the IEEE range of an external function).  There is no
negative zero: the single finite zero behaves as IEEE `+0`.
-/

open scoped Classical

/-- Model of an IEEE-754 double: NaN, the two infinities, or a finite value
represented by an exact real number. -/
inductive F where
  | nan : F
  | posInf : F
  | negInf : F
  | fin : ℝ → F

namespace F

/-- `x` is the NaN value. -/
def isNaN : F → Prop
  | nan => True
  | _ => False

/-- IEEE strict less-than: any comparison with NaN is false. -/
def Lt : F → F → Prop
  | nan, _ => False
  | _, nan => False
  | negInf, negInf => False
  | negInf, _ => True
  | _, negInf => False
  | posInf, _ => False
  | fin _, posInf => True
  | fin a, fin b => a < b

/-- IEEE less-or-equal: any comparison with NaN is false. -/
def Le : F → F → Prop
  | nan, _ => False
  | _, nan => False
  | negInf, _ => True
  | _, posInf => True
  | posInf, _ => False
  | fin _, negInf => False
  | fin a, fin b => a ≤ b

/-- IEEE equality test (`==` in Rust): false whenever either side is NaN. -/
def ieeeEq : F → F → Prop
  | fin a, fin b => a = b
  | posInf, posInf => True
  | negInf, negInf => True
  | _, _ => False

/-- IEEE negation. -/
def neg : F → F
  | nan => nan
  | posInf => negInf
  | negInf => posInf
  | fin a => fin (-a)

/-- IEEE addition (finite part exact). -/
def add : F → F → F
  | nan, _ => nan
  | _, nan => nan
  | posInf, negInf => nan
  | negInf, posInf => nan
  | posInf, _ => posInf
  | _, posInf => posInf
  | negInf, _ => negInf
  | _, negInf => negInf
  | fin a, fin b => fin (a + b)

/-- IEEE subtraction, as addition of the negation. -/
def sub (x y : F) : F := add x (neg y)

/-- IEEE multiplication (finite part exact); `0 · ∞ = NaN`. -/
noncomputable def mul : F → F → F
  | nan, _ => nan
  | _, nan => nan
  | posInf, posInf => posInf
  | posInf, negInf => negInf
  | negInf, posInf => negInf
  | negInf, negInf => posInf
  | posInf, fin b => if b = 0 then nan else if 0 < b then posInf else negInf
  | fin a, posInf => if a = 0 then nan else if 0 < a then posInf else negInf
  | negInf, fin b => if b = 0 then nan else if 0 < b then negInf else posInf
  | fin a, negInf => if a = 0 then nan else if 0 < a then negInf else posInf
  | fin a, fin b => fin (a * b)

/-- IEEE division (finite part exact); `∞/∞ = NaN`, `0/0 = NaN`, a nonzero
finite value divided by zero is a signed infinity (the model's zero is `+0`). -/
noncomputable def div : F → F → F
  | nan, _ => nan
  | _, nan => nan
  | posInf, posInf => nan
  | posInf, negInf => nan
  | negInf, posInf => nan
  | negInf, negInf => nan
  | posInf, fin b => if 0 ≤ b then posInf else negInf
  | negInf, fin b => if 0 ≤ b then negInf else posInf
  | fin _, posInf => fin 0
  | fin _, negInf => fin 0
  | fin a, fin b =>
      if b = 0 then (if a = 0 then nan else if 0 < a then posInf else negInf)
      else fin (a / b)

/-- The real carried by a finite value (0 for the specials); used only to
read back an integer degrees-of-freedom value for the `n as u8` cast. -/
def toReal : F → ℝ
  | fin a => a
  | _ => 0

/-- `e` is an integer-valued real. -/
def IsIntR (e : ℝ) : Prop := ∃ k : ℤ, e = (k : ℝ)

/-- `e` is an odd-integer-valued real. -/
def IsOddIntR (e : ℝ) : Prop := ∃ k : ℤ, Odd k ∧ e = (k : ℝ)

/-- IEEE `pow` (Rust `f64::powf`), following the C `pow` special cases:
`pow(x, ±0) = 1` for every `x` (NaN included), `pow(1, y) = 1` for every `y`
(NaN included), NaN propagates otherwise, infinite arguments follow the
magnitude rules, a negative finite base with a non-integer finite exponent
gives NaN, and a positive finite base with a finite exponent is exact
(`Real.rpow`, which also agrees with IEEE for negative bases and integer
exponents). -/
noncomputable def pow : F → F → F
  | x, fin e =>
      if e = 0 then fin 1
      else
        match x with
        | nan => nan
        | posInf => if 0 < e then posInf else fin 0
        | negInf =>
            if 0 < e then (if IsOddIntR e then negInf else posInf)
            else fin 0
        | fin b =>
            if b = 0 then (if 0 < e then fin 0 else posInf)
            else if b < 0 ∧ ¬ IsIntR e then nan
            else fin (b ^ e)
  | nan, _ => nan
  | x, posInf =>
      match x with
      | nan => nan
      | posInf => posInf
      | negInf => posInf
      | fin b =>
          if b = 1 ∨ b = -1 then fin 1
          else if -1 < b ∧ b < 1 then fin 0
          else posInf
  | x, negInf =>
      match x with
      | nan => nan
      | posInf => fin 0
      | negInf => fin 0
      | fin b =>
          if b = 1 ∨ b = -1 then fin 1
          else if -1 < b ∧ b < 1 then posInf
          else fin 0
  | fin b, nan => if b = 1 then fin 1 else nan
  | _, nan => nan

/-- IEEE `sqrt`: NaN for negative arguments (including `-∞`). -/
noncomputable def sqrt : F → F
  | nan => nan
  | posInf => posInf
  | negInf => nan
  | fin a => if a < 0 then nan else fin (Real.sqrt a)

/-- IEEE `exp`. -/
noncomputable def exp : F → F
  | nan => nan
  | posInf => posInf
  | negInf => fin 0
  | fin a => fin (Real.exp a)

/-- IEEE `ln`: `ln 0 = -∞`, NaN for negative arguments. -/
noncomputable def ln : F → F
  | nan => nan
  | posInf => posInf
  | negInf => nan
  | fin a => if a = 0 then negInf else if a < 0 then nan else fin (Real.log a)

/-- IEEE `sin` (NaN at infinities). -/
noncomputable def sin : F → F
  | fin a => fin (Real.sin a)
  | _ => nan

/-- IEEE `cos` (NaN at infinities). -/
noncomputable def cos : F → F
  | fin a => fin (Real.cos a)
  | _ => nan

/-- IEEE `atan` (`±π/2` at the infinities). -/
noncomputable def atan : F → F
  | nan => nan
  | posInf => fin (Real.pi / 2)
  | negInf => fin (-(Real.pi / 2))
  | fin a => fin (Real.arctan a)

/-- IEEE absolute value. -/
noncomputable def abs : F → F
  | nan => nan
  | posInf => posInf
  | negInf => posInf
  | fin a => fin |a|

/-- IEEE `floor`. -/
noncomputable def floor : F → F
  | nan => nan
  | posInf => posInf
  | negInf => negInf
  | fin a => fin (⌊a⌋ : ℝ)

/-- Round toward zero on the reals (Rust `f64::trunc` on the finite part). -/
noncomputable def realTrunc (a : ℝ) : ℝ := if 0 ≤ a then (⌊a⌋ : ℝ) else (⌈a⌉ : ℝ)

/-- IEEE `trunc` (round toward zero). -/
noncomputable def trunc : F → F
  | nan => nan
  | posInf => posInf
  | negInf => negInf
  | fin a => fin (realTrunc a)

noncomputable instance : Add F := ⟨F.add⟩
noncomputable instance : Sub F := ⟨F.sub⟩
noncomputable instance : Mul F := ⟨F.mul⟩
noncomputable instance : Div F := ⟨F.div⟩
noncomputable instance : Neg F := ⟨F.neg⟩

end F

/-!
## `src/erf.rs` — Winitzki (2008) approximations of erf and its inverse
-/

/-- `erf` from `src/erf.rs`: the Winitzki rational approximation
`sign(x) · sqrt(1 − exp(−x²·(4/π + a·x²)/(1 + a·x²)))` with `a = 0.14`. -/
noncomputable def erf (x : F) : F :=
  let s : F × F := if F.Lt x (F.fin 0) then (F.fin (-1), -x) else (F.fin 1, x)
  let sign := s.1
  let x1 := s.2
  let a : F := F.fin 0.14
  let x2 := x1 * x1
  sign * F.sqrt (F.fin 1 - F.exp (-x2 * (F.fin 4 / F.fin Real.pi + a * x2) / (F.fin 1 + a * x2)))

/-- `inverse_erf` from `src/erf.rs`: the Winitzki approximation with
`a = 0.147`, built from `ln(1 − x²)`. -/
noncomputable def inverse_erf (x : F) : F :=
  let s : F × F := if F.Lt x (F.fin 0) then (F.fin (-1), -x) else (F.fin 1, x)
  let sign := s.1
  let x1 := s.2
  let a : F := F.fin 0.147
  let lnv := F.ln (F.fin 1 - x1 * x1)
  let f1 := F.fin 2 / (F.fin Real.pi * a)
  let f2 := lnv / F.fin 2
  let f3 := f1 + f2
  let f4 := F.fin 1 / a * lnv
  sign * F.sqrt (-f1 - f2 + F.sqrt (f3 * f3 - f4))

/-!
## `src/math.rs` — host math backend (external C library functions)

`Normal::cdf` consumes `math::erf` and `StudentsT::pdf` consumes
`math::tgamma`; both are `extern "C"` bindings to the platform libm, so their
bodies are not in the repository.
-/

namespace math

/-- Modelled from the spec: the largest finite IEEE-754 double,
`2^1024 − 2^971`; the spec requires the host math backend to be "IEEE-754
double-precision" (§6), so host results above this magnitude overflow to an
infinity. -/
noncomputable def maxF64 : ℝ := 2 ^ (1024 : ℕ) - 2 ^ (971 : ℕ)

/-- Modelled from the spec: `math::erf`, the host (libm) Gauss error function
`2/√π ∫₀ˣ e^(−t²) dt` (spec glossary and §6), with the IEEE behavior
`erf(NaN) = NaN`, `erf(±∞) = ±1`. -/
noncomputable def erf : F → F
  | F.nan => F.nan
  | F.posInf => F.fin 1
  | F.negInf => F.fin (-1)
  | F.fin r => F.fin (2 / Real.sqrt Real.pi * ∫ t in (0:ℝ)..r, Real.exp (-(t ^ 2)))

/-- Modelled from the spec: `math::tgamma`, the host (libm) gamma function
(spec §4.2 and §6): `Γ(x)` for arguments that are not poles, NaN at `-∞`,
zero and the negative integers mapped per C99 `tgamma` (`tgamma(±0) = ±∞`,
NaN at negative integers), `+∞` at `+∞`, and IEEE-754 overflow to a signed
infinity when `|Γ(x)|` exceeds the largest finite double. -/
noncomputable def tgamma : F → F
  | F.nan => F.nan
  | F.posInf => F.posInf
  | F.negInf => F.nan
  | F.fin r =>
      if r = 0 then F.posInf
      else if r < 0 ∧ F.IsIntR r then F.nan
      else if maxF64 < Real.Gamma r then F.posInf
      else if Real.Gamma r < -maxF64 then F.negInf
      else F.fin (Real.Gamma r)

end math

/-!
## `src/gamma.rs` — Lanczos approximation of the gamma function
-/

namespace gamma

/-- `COEFFICIENTS` from `src/gamma.rs` (Lanczos, g = 7, 8 coefficients). -/
def COEFFICIENTS : List ℝ :=
  [676.5203681218851,
   -1259.1392167224028,
   771.32342877765313,
   -176.61502916214059,
   12.507343278686905,
   -0.13857109526572012,
   9.9843695780195716e-6,
   1.5056327351493116e-7]

/-- The accumulation loop of `lanczos_gamma`:
`for i in 0..COEFFICIENTS.len() { x += COEFFICIENTS[i] / (z + i + 1.0) }`. -/
noncomputable def lanczosAcc (z : F) : List ℝ → ℕ → F → F
  | [], _, x => x
  | c :: rest, i, x => lanczosAcc z rest (i + 1) (x + F.fin c / (z + F.fin (i : ℝ) + F.fin 1))

/-- `lanczos_gamma` from `src/gamma.rs` (valid for arguments ≥ 0.5):
shift `z = x − 1`, accumulate the Lanczos series, then
`sqrt(2π) · t^(z+0.5) · exp(−t) · acc` with `t = z − 0.5 + 8`. -/
noncomputable def lanczos_gamma (z0 : F) : F :=
  let z := z0 - F.fin 1
  let x := lanczosAcc z COEFFICIENTS 0 (F.fin 0.99999999999980993)
  let t := z - F.fin 0.5 + F.fin 8
  F.sqrt (F.fin 2 * F.fin Real.pi) * F.pow t (z + F.fin 0.5) * F.exp (-t) * x

/-- `reflection_formula` from `src/gamma.rs`:
`Γ(x) = π / (sin(πx) · Γ(1−x))`, used when `x < 0.5`. -/
noncomputable def reflection_formula (x : F) : F :=
  F.fin Real.pi / (F.sin (F.fin Real.pi * x) * lanczos_gamma (F.fin 1 - x))

/-- `gamma_undefined_for` from `src/gamma.rs`:
`x < 0.5 && x.trunc() == x` (both comparisons IEEE). -/
def gamma_undefined_for (x : F) : Prop :=
  F.Lt x (F.fin 0.5) ∧ F.ieeeEq (F.trunc x) x

/-- `gamma::calculate` from `src/gamma.rs`: `None` at the detected poles,
the reflection formula below 0.5, the direct Lanczos series otherwise. -/
noncomputable def calculate (x : F) : Option F :=
  if gamma_undefined_for x then none
  else if F.Lt x (F.fin 0.5) then some (reflection_formula x)
  else some (lanczos_gamma x)

end gamma

/-!
## `src/normal.rs` — Normal distribution (pdf, cdf via `math::erf`,
ppf via Wichura's AS 241)
-/

namespace Normal

/-- Coefficient array `A` from `src/normal.rs` (AS 241, central numerator). -/
noncomputable def coefA : Fin 8 → ℝ :=
  ![3.3871328727963666080e0,
    1.3314166789178437745e2,
    1.9715909503065514427e3,
    1.3731693765509461125e4,
    4.5921953931549871457e4,
    6.7265770927008700853e4,
    3.3430575583588128105e4,
    2.5090809287301226727e3]

/-- Coefficient array `B` from `src/normal.rs` (AS 241, central denominator). -/
noncomputable def coefB : Fin 7 → ℝ :=
  ![4.2313330701600911252e1,
    6.8718700749205790830e2,
    5.3941960214247511077e3,
    2.1213794301586595867e4,
    3.9307895800092710610e4,
    2.8729085735721942674e4,
    5.2264952788528545610e3]

/-- Coefficient array `C` from `src/normal.rs` (AS 241, middle-tail numerator). -/
noncomputable def coefC : Fin 8 → ℝ :=
  ![1.42343711074968357734e0,
    4.63033784615654529590e0,
    5.76949722146069140550e0,
    3.64784832476320460504e0,
    1.27045825245236838258e0,
    2.41780725177450611770e-1,
    2.27238449892691845833e-2,
    7.74545014278341407640e-4]

/-- Coefficient array `D` from `src/normal.rs` (AS 241, middle-tail denominator). -/
noncomputable def coefD : Fin 7 → ℝ :=
  ![2.05319162663775882187e0,
    1.67638483018380384940e0,
    6.89767334985100004550e-1,
    1.48103976427480074590e-1,
    1.51986665636164571966e-2,
    5.47593808499534494600e-4,
    1.05075007164441684324e-9]

/-- Coefficient array `E2` from `src/normal.rs` (AS 241, far-tail numerator). -/
noncomputable def coefE2 : Fin 8 → ℝ :=
  ![6.65790464350110377720e0,
    5.46378491116411436990e0,
    1.78482653991729133580e0,
    2.96560571828504891230e-1,
    2.65321895265761230930e-2,
    1.24266094738807843860e-3,
    2.71155556874348757815e-5,
    2.01033439929228813265e-7]

/-- Coefficient array `F` from `src/normal.rs` (AS 241, far-tail denominator). -/
noncomputable def coefF : Fin 7 → ℝ :=
  ![5.99832206555887937690e-1,
    1.36929880922735805310e-1,
    1.48753612908506148525e-2,
    7.86869131145613259100e-4,
    1.84631831751005468180e-5,
    1.42151175831644588870e-7,
    2.04426310338993978564e-15]

/-- The degree-7 Horner numerator used by `Normal::ppf`:
`((((((a[7]·r + a[6])·r + a[5])·r + a[4])·r + a[3])·r + a[2])·r + a[1])·r + a[0]`. -/
noncomputable def ppfNum (a : Fin 8 → ℝ) (r : F) : F :=
  (((((((F.fin (a 7) * r + F.fin (a 6)) * r + F.fin (a 5)) * r + F.fin (a 4)) * r
      + F.fin (a 3)) * r + F.fin (a 2)) * r + F.fin (a 1)) * r + F.fin (a 0))

/-- The degree-7 Horner denominator used by `Normal::ppf`:
`((((((b[6]·r + b[5])·r + b[4])·r + b[3])·r + b[2])·r + b[1])·r + b[0])·r + 1`. -/
noncomputable def ppfDen (b : Fin 7 → ℝ) (r : F) : F :=
  (((((((F.fin (b 6) * r + F.fin (b 5)) * r + F.fin (b 4)) * r + F.fin (b 3)) * r
      + F.fin (b 2)) * r + F.fin (b 1)) * r + F.fin (b 0)) * r + F.fin 1)

/-- `Normal::pdf` from `src/normal.rs`:
`1/(std_dev·sqrt(2π)) · E^(−0.5·n²)` with `n = (x − mean)/std_dev`, guarded by
`std_dev <= 0.0`. -/
noncomputable def pdf (x mean std_dev : F) : F :=
  if F.Le std_dev (F.fin 0) then F.nan
  else
    let n := (x - mean) / std_dev
    (F.fin 1 / (std_dev * F.sqrt (F.fin 2 * F.fin Real.pi)))
      * F.pow (F.fin (Real.exp 1)) (F.fin (-0.5) * n * n)

/-- `Normal::cdf` from `src/normal.rs`:
`0.5 · (1 + erf((x − mean)/(std_dev·√2)))` with the host `math::erf`, guarded
by `std_dev <= 0.0`. -/
noncomputable def cdf (x mean std_dev : F) : F :=
  if F.Le std_dev (F.fin 0) then F.nan
  else F.fin 0.5 * (F.fin 1 + math.erf ((x - mean) / (std_dev * F.fin (Real.sqrt 2))))

/-- `Normal::ppf` from `src/normal.rs` (Wichura 1988, AS 241): NaN guard,
`−∞`/`+∞` at `p = 0`/`p = 1`, the central rational approximation for
`|p − 0.5| < 0.425`, and the two tail approximations selected by
`r = sqrt(−ln(min(p, 1−p)))` below/above 5. -/
noncomputable def ppf (p mean std_dev : F) : F :=
  if F.Lt p (F.fin 0) ∨ F.Lt (F.fin 1) p ∨ F.Le std_dev (F.fin 0)
      ∨ mean.isNaN ∨ std_dev.isNaN then F.nan
  else if F.ieeeEq p (F.fin 0) then F.negInf
  else if F.ieeeEq p (F.fin 1) then F.posInf
  else
    let q := p - F.fin 0.5
    if F.Lt (F.abs q) (F.fin 0.425) then
      let r := F.fin 0.180625 - q * q
      mean + std_dev * q * ppfNum coefA r / ppfDen coefB r
    else
      let r0 := if F.Lt q (F.fin 0) then p else F.fin 1 - p
      let r1 := F.sqrt (-(F.ln r0))
      let sign : F := if F.Lt q (F.fin 0) then F.fin (-1) else F.fin 1
      if F.Lt r1 (F.fin 5) then
        let r2 := r1 - F.fin 1.6
        mean + std_dev * sign * ppfNum coefC r2 / ppfDen coefD r2
      else
        let r2 := r1 - F.fin 5
        mean + std_dev * sign * ppfNum coefE2 r2 / ppfDen coefF r2

end Normal

/-!
## `src/students_t.rs` — Student's t distribution (Hill 1970,
Algorithms 395 and 396)
-/

namespace StudentsT

/-- The shared decrement-by-2 recurrence of `StudentsT::cdf`
(`while n > 1 { a = (n - 1) as f64 / (b * n as f64) * a + y; n -= 2 }`),
returning the final `a` together with the final (0 or 1) value of `n`. -/
noncomputable def cosLoop (b y : F) (n : ℕ) (a : F) : F × ℕ :=
  if 1 < n then
    cosLoop b y (n - 2) (F.fin ((n - 1 : ℕ) : ℝ) / (b * F.fin (n : ℝ)) * a + y)
  else (a, n)
termination_by n
decreasing_by omega

/-- Fuel bound for the convergence loop of the tail-series branch.  The Rust
loop runs until `a == z` exactly, which happens through floating-point
rounding; the fuel only truncates the model of this loop, no claim below
depends on the value it converges to. -/
def tailFuel : ℕ := 1000000000

/-- The tail-series convergence loop of `StudentsT::cdf`
(`while a != z { j += 2; z = a; y = y*(j-1)/(b*j); a += y/(n+j) }`) on the
state `(z, y, a, j)`, with fuel. -/
noncomputable def tailLoop (b : F) (n : ℕ) : ℕ → F → F → F → ℕ → F × F × F × ℕ
  | 0, z, y, a, j => (z, y, a, j)
  | fuel + 1, z, y, a, j =>
    if F.ieeeEq a z then (z, y, a, j)
    else
      let j1 := j + 2
      let z1 := a
      let y1 := y * F.fin ((j1 - 1 : ℕ) : ℝ) / (b * F.fin (j1 : ℝ))
      let a1 := a + y1 / F.fin ((n + j1 : ℕ) : ℝ)
      tailLoop b n fuel z1 y1 a1 j1

/-- `StudentsT::pdf` from `src/students_t.rs`:
`Γ((n+1)/2) / (√(nπ)·Γ(n/2)) · (1 + x²/n)^(−(n+1)/2)` with the host
`math::tgamma`, guarded by `n.is_nan() || n <= 0.0` and special-cased to the
standard Normal pdf at `n = +∞`. -/
noncomputable def pdf (x n : F) : F :=
  if n.isNaN ∨ F.Le n (F.fin 0) then F.nan
  else if F.ieeeEq n F.posInf then Normal.pdf x (F.fin 0) (F.fin 1)
  else
    math.tgamma ((n + F.fin 1) / F.fin 2)
      / (F.sqrt (n * F.fin Real.pi) * math.tgamma (n / F.fin 2))
      * F.pow (F.fin 1 + x * x / n) (-(n + F.fin 1) / F.fin 2)

/-- `StudentsT::cdf` from `src/students_t.rs` (Hill 1970, Algorithm 395):
guard `x.is_nan() || n.is_nan() || n < 1.0`, boundary values at `x = ∓∞`,
delegation to the Normal cdf at `n = +∞`, then the asymptotic branch
(noninteger `n`, or `n ≥ 20 && t < n`, or `n > 200`), the nested cosine-series
branch (integer `n < 20` with `t < 4`), or the tail-series branch. -/
noncomputable def cdf (x n : F) : F :=
  if x.isNaN ∨ n.isNaN ∨ F.Lt n (F.fin 1) then F.nan
  else if F.ieeeEq x F.negInf then F.fin 0
  else if F.ieeeEq x F.posInf then F.fin 1
  else if F.ieeeEq n F.posInf then Normal.cdf x (F.fin 0) (F.fin 1)
  else
    let ss : F × F := if F.Lt x (F.fin 0) then (F.fin 0, F.fin 1) else (F.fin 1, F.fin (-1))
    let start := ss.1
    let sign := ss.2
    let z : F := F.fin 1
    let t := x * x
    let y := t / n
    let b := F.fin 1 + y
    if F.Lt (F.floor n) n ∨ (F.Le (F.fin 20) n ∧ F.Lt t n) ∨ F.Lt (F.fin 200) n then
      -- asymptotic series for large or noninteger n
      let y1 := if F.Lt (F.fin 10e-6) y then F.ln b else y
      let a := n - F.fin 0.5
      let b1 := F.fin 48 * a * a
      let y2 := y1 * a
      let y3 := (((((F.fin (-0.4) * y2 - F.fin 3.3) * y2 - F.fin 24) * y2 - F.fin 85.5)
            / (F.fin 0.8 * y2 * y2 + F.fin 100 + b1) + y2 + F.fin 3) / b1 + F.fin 1)
          * F.sqrt y2
      start + sign * Normal.cdf (-y3) (F.fin 0) (F.fin 1)
    else
      -- `let mut n = n as u8`: here n is an integer between 1 and 200, so the
      -- saturating Rust cast is just the integer value
      let m : ℕ := (⌊n.toReal⌋).toNat
      if m < 20 ∧ F.Lt t (F.fin 4) then
        -- nested summation of cosine series
        let y4 := F.sqrt y
        let a0 := if m = 1 then F.fin 0 else y4
        let res := if 1 < m then cosLoop b y4 (m - 2) a0 else (a0, m)
        let a1 := res.1
        let mf := res.2
        let a2 := if mf = 0 then a1 / F.sqrt b
                  else (F.atan y4 + a1 / b) * (F.fin 2 / F.fin Real.pi)
        start + sign * (z - a2) / F.fin 2
      else
        -- tail series expansion for large t-values
        let a0 := F.sqrt b
        let y5 := a0 * F.fin (m : ℝ)
        let r := tailLoop b m tailFuel z y5 a0 0
        let a1 := r.2.2.1
        -- z = 0.0; y = 0.0; a = -a; then the same recurrence run backward
        let res := cosLoop b (F.fin 0) m (-a1)
        let a2 := res.1
        let mf := res.2
        let a3 := if mf = 0 then a2 / F.sqrt b
                  else (F.atan (F.fin 0) + a2 / b) * (F.fin 2 / F.fin Real.pi)
        start + sign * (F.fin 0 - a3) / F.fin 2

/-- `StudentsT::ppf` from `src/students_t.rs` (Hill 1970, Algorithm 396):
guard `!(0.0..=1.0).contains(&p) || n < 1.0`, delegation to the Normal ppf at
`n = +∞`, symmetry reduction, closed forms at `n = 2` and `n = 1`, then the
rational initial estimate refined either through the asymptotic expansion
about the normal or the direct low-order correction. -/
noncomputable def ppf (p n : F) : F :=
  if ¬ (F.Le (F.fin 0) p ∧ F.Le p (F.fin 1)) ∨ F.Lt n (F.fin 1) then F.nan
  else if F.ieeeEq n F.posInf then Normal.ppf p (F.fin 0) (F.fin 1)
  else
    -- distribution is symmetric
    let sp : F × F := if F.Lt p (F.fin 0.5) then (F.fin (-1), F.fin 1 - p) else (F.fin 1, p)
    let sign := sp.1
    let p1 := sp.2
    -- two-tail to one-tail
    let p2 := F.fin 2 * (F.fin 1 - p1)
    if F.ieeeEq n (F.fin 2) then
      sign * F.sqrt (F.fin 2 / (p2 * (F.fin 2 - p2)) - F.fin 2)
    else
      let half_pi := F.fin Real.pi / F.fin 2
      if F.ieeeEq n (F.fin 1) then
        let p3 := p2 * half_pi
        sign * F.cos p3 / F.sin p3
      else
        let a := F.fin 1 / (n - F.fin 0.5)
        let b := F.fin 48 / (a * a)
        let c0 := ((F.fin 20700 * a / b - F.fin 98) * a - F.fin 16) * a + F.fin 96.36
        let d := ((F.fin 94.5 / (b + c0) - F.fin 3) / b + F.fin 1)
            * F.sqrt (a * half_pi) * n
        let x0 := d * p2
        let y0 := F.pow x0 (F.fin 2 / n)
        if F.Lt (F.fin 0.05 + a) y0 then
          -- asymptotic inverse expansion about normal
          let x1 := Normal.ppf (p2 * F.fin 0.5) (F.fin 0) (F.fin 1)
          let y1 := x1 * x1
          let c1 := if F.Lt n (F.fin 5)
                    then c0 + F.fin 0.3 * (n - F.fin 4.5) * (x1 + F.fin 0.6)
                    else c0
          let c2 := c1 + ((((F.fin 0.05 * d * x1 - F.fin 5) * x1 - F.fin 7) * x1
              - F.fin 2) * x1 + b)
          let y2 := (((((F.fin 0.4 * y1 + F.fin 6.3) * y1 + F.fin 36) * y1
              + F.fin 94.5) / c2 - y1 - F.fin 3) / b + F.fin 1) * x1
          let y3 := a * y2 * y2
          let y4 := if F.Lt (F.fin 0.002) y3
                    then F.exp y3 - F.fin 1
                    else F.fin 0.5 * y3 * y3 + y3
          sign * F.sqrt (n * y4)
        else
          let y5 := ((F.fin 1 / (((n + F.fin 6) / (n * y0) - F.fin 0.089 * d
              - F.fin 0.822) * (n + F.fin 2) * F.fin 3) + F.fin 0.5 / (n + F.fin 4)) * y0
              - F.fin 1) * (n + F.fin 1) / (n + F.fin 2) + F.fin 1 / y0
          sign * F.sqrt (n * y5)

end StudentsT

/-- The spec's wording for the domain of `gamma::calculate`'s `None` result:
the argument is zero or a negative whole number. -/
def IsZeroOrNegWhole (x : F) : Prop :=
  x = F.fin 0 ∨ ∃ r : ℝ, x = F.fin r ∧ r < 0 ∧ F.IsIntR r

/-!
## Helper lemmas
-/

namespace F

@[simp] theorem isNaN_nan : (nan).isNaN := trivial

@[simp] theorem isNaN_posInf : ¬ (posInf).isNaN := id

@[simp] theorem isNaN_negInf : ¬ (negInf).isNaN := id

@[simp] theorem isNaN_fin (a : ℝ) : ¬ (fin a).isNaN := id

@[simp] theorem lt_fin_fin {a b : ℝ} : Lt (fin a) (fin b) ↔ a < b := Iff.rfl

@[simp] theorem not_lt_nan_left (x : F) : ¬ Lt nan x := by cases x <;> exact id

@[simp] theorem not_lt_nan_right (x : F) : ¬ Lt x nan := by cases x <;> exact id

@[simp] theorem not_lt_posInf_left (x : F) : ¬ Lt posInf x := by cases x <;> exact id

@[simp] theorem not_lt_negInf_right (x : F) : ¬ Lt x negInf := by cases x <;> exact id

@[simp] theorem lt_negInf_posInf : Lt negInf posInf := trivial

@[simp] theorem lt_negInf_fin (b : ℝ) : Lt negInf (fin b) := trivial

@[simp] theorem lt_fin_posInf (a : ℝ) : Lt (fin a) posInf := trivial

@[simp] theorem le_fin_fin {a b : ℝ} : Le (fin a) (fin b) ↔ a ≤ b := Iff.rfl

@[simp] theorem not_le_nan_left (x : F) : ¬ Le nan x := by cases x <;> exact id

@[simp] theorem not_le_nan_right (x : F) : ¬ Le x nan := by cases x <;> exact id

@[simp] theorem le_negInf_negInf : Le negInf negInf := trivial

@[simp] theorem le_negInf_fin (b : ℝ) : Le negInf (fin b) := trivial

@[simp] theorem le_negInf_posInf : Le negInf posInf := trivial

@[simp] theorem le_posInf_posInf : Le posInf posInf := trivial

@[simp] theorem le_fin_posInf (a : ℝ) : Le (fin a) posInf := trivial

@[simp] theorem not_le_posInf_negInf : ¬ Le posInf negInf := id

@[simp] theorem not_le_posInf_fin (b : ℝ) : ¬ Le posInf (fin b) := id

@[simp] theorem not_le_fin_negInf (a : ℝ) : ¬ Le (fin a) negInf := id

@[simp] theorem ieeeEq_fin_fin {a b : ℝ} : ieeeEq (fin a) (fin b) ↔ a = b := Iff.rfl

@[simp] theorem ieeeEq_posInf_posInf : ieeeEq posInf posInf := trivial

@[simp] theorem ieeeEq_negInf_negInf : ieeeEq negInf negInf := trivial

@[simp] theorem not_ieeeEq_nan_left (x : F) : ¬ ieeeEq nan x := by cases x <;> exact id

@[simp] theorem not_ieeeEq_nan_right (x : F) : ¬ ieeeEq x nan := by cases x <;> exact id

@[simp] theorem not_ieeeEq_fin_posInf (a : ℝ) : ¬ ieeeEq (fin a) posInf := id

@[simp] theorem not_ieeeEq_fin_negInf (a : ℝ) : ¬ ieeeEq (fin a) negInf := id

@[simp] theorem not_ieeeEq_posInf_fin (b : ℝ) : ¬ ieeeEq posInf (fin b) := id

@[simp] theorem not_ieeeEq_negInf_fin (b : ℝ) : ¬ ieeeEq negInf (fin b) := id

@[simp] theorem not_ieeeEq_posInf_negInf : ¬ ieeeEq posInf negInf := id

@[simp] theorem not_ieeeEq_negInf_posInf : ¬ ieeeEq negInf posInf := id

@[simp] theorem neg_nan : (-nan : F) = nan := rfl

@[simp] theorem neg_posInf : (-posInf : F) = negInf := rfl

@[simp] theorem neg_negInf : (-negInf : F) = posInf := rfl

@[simp] theorem neg_fin (a : ℝ) : (-(fin a) : F) = fin (-a) := rfl

@[simp] theorem add_fin_fin (a b : ℝ) : fin a + fin b = fin (a + b) := rfl

@[simp] theorem nan_add (x : F) : nan + x = nan := by cases x <;> rfl

@[simp] theorem add_nan (x : F) : x + nan = nan := by cases x <;> rfl

@[simp] theorem posInf_add_negInf : posInf + negInf = nan := rfl

@[simp] theorem negInf_add_posInf : negInf + posInf = nan := rfl

@[simp] theorem posInf_add_posInf : posInf + posInf = posInf := rfl

@[simp] theorem negInf_add_negInf : negInf + negInf = negInf := rfl

@[simp] theorem posInf_add_fin (b : ℝ) : posInf + fin b = posInf := rfl

@[simp] theorem fin_add_posInf (a : ℝ) : fin a + posInf = posInf := rfl

@[simp] theorem negInf_add_fin (b : ℝ) : negInf + fin b = negInf := rfl

@[simp] theorem fin_add_negInf (a : ℝ) : fin a + negInf = negInf := rfl

@[simp] theorem sub_fin_fin (a b : ℝ) : fin a - fin b = fin (a - b) := by
  show fin (a + -b) = fin (a - b)
  rw [← sub_eq_add_neg]

@[simp] theorem nan_sub (x : F) : nan - x = nan := by cases x <;> rfl

@[simp] theorem sub_nan (x : F) : x - nan = nan := by cases x <;> rfl

@[simp] theorem posInf_sub_posInf : posInf - posInf = nan := rfl

@[simp] theorem negInf_sub_negInf : negInf - negInf = nan := rfl

@[simp] theorem posInf_sub_negInf : posInf - negInf = posInf := rfl

@[simp] theorem negInf_sub_posInf : negInf - posInf = negInf := rfl

@[simp] theorem posInf_sub_fin (b : ℝ) : posInf - fin b = posInf := rfl

@[simp] theorem negInf_sub_fin (b : ℝ) : negInf - fin b = negInf := rfl

@[simp] theorem fin_sub_posInf (a : ℝ) : fin a - posInf = negInf := rfl

@[simp] theorem fin_sub_negInf (a : ℝ) : fin a - negInf = posInf := rfl

@[simp] theorem mul_fin_fin (a b : ℝ) : fin a * fin b = fin (a * b) := rfl

@[simp] theorem nan_mul (x : F) : nan * x = nan := by cases x <;> rfl

@[simp] theorem mul_nan (x : F) : x * nan = nan := by cases x <;> rfl

@[simp] theorem posInf_mul_posInf : posInf * posInf = posInf := rfl

@[simp] theorem posInf_mul_negInf : posInf * negInf = negInf := rfl

@[simp] theorem negInf_mul_posInf : negInf * posInf = negInf := rfl

@[simp] theorem negInf_mul_negInf : negInf * negInf = posInf := rfl

theorem posInf_mul_fin_pos {b : ℝ} (h : 0 < b) : posInf * fin b = posInf := by
  show mul posInf (fin b) = posInf
  rw [mul]
  rw [if_neg (by positivity), if_pos h]

theorem posInf_mul_fin_neg {b : ℝ} (h : b < 0) : posInf * fin b = negInf := by
  show mul posInf (fin b) = negInf
  rw [mul]
  rw [if_neg (by linarith), if_neg (by linarith)]

theorem fin_mul_posInf_pos {a : ℝ} (h : 0 < a) : fin a * posInf = posInf := by
  show mul (fin a) posInf = posInf
  rw [mul]
  rw [if_neg (by positivity), if_pos h]

theorem fin_mul_posInf_neg {a : ℝ} (h : a < 0) : fin a * posInf = negInf := by
  show mul (fin a) posInf = negInf
  rw [mul]
  rw [if_neg (by linarith), if_neg (by linarith)]

theorem negInf_mul_fin_pos {b : ℝ} (h : 0 < b) : negInf * fin b = negInf := by
  show mul negInf (fin b) = negInf
  rw [mul]
  rw [if_neg (by positivity), if_pos h]

theorem negInf_mul_fin_neg {b : ℝ} (h : b < 0) : negInf * fin b = posInf := by
  show mul negInf (fin b) = posInf
  rw [mul]
  rw [if_neg (by linarith), if_neg (by linarith)]

theorem fin_mul_negInf_pos {a : ℝ} (h : 0 < a) : fin a * negInf = negInf := by
  show mul (fin a) negInf = negInf
  rw [mul]
  rw [if_neg (by positivity), if_pos h]

@[simp] theorem nan_div (x : F) : nan / x = nan := by cases x <;> rfl

@[simp] theorem div_nan (x : F) : x / nan = nan := by cases x <;> rfl

@[simp] theorem posInf_div_posInf : posInf / posInf = nan := rfl

@[simp] theorem posInf_div_negInf : posInf / negInf = nan := rfl

@[simp] theorem negInf_div_posInf : negInf / posInf = nan := rfl

@[simp] theorem negInf_div_negInf : negInf / negInf = nan := rfl

@[simp] theorem fin_div_posInf (a : ℝ) : fin a / posInf = fin 0 := rfl

@[simp] theorem fin_div_negInf (a : ℝ) : fin a / negInf = fin 0 := rfl

theorem div_fin_fin {b : ℝ} (a : ℝ) (h : b ≠ 0) : fin a / fin b = fin (a / b) := by
  show div (fin a) (fin b) = fin (a / b)
  rw [div]
  rw [if_neg h]

theorem fin_div_zero_pos {a : ℝ} (h : 0 < a) : fin a / fin 0 = posInf := by
  show div (fin a) (fin 0) = posInf
  rw [div]
  rw [if_pos rfl, if_neg (by positivity), if_pos h]

theorem fin_div_zero_neg {a : ℝ} (h : a < 0) : fin a / fin 0 = negInf := by
  show div (fin a) (fin 0) = negInf
  rw [div]
  rw [if_pos rfl, if_neg (by linarith), if_neg (by linarith)]

theorem posInf_div_fin_nonneg {b : ℝ} (h : 0 ≤ b) : posInf / fin b = posInf := by
  show div posInf (fin b) = posInf
  rw [div]
  rw [if_pos h]

theorem posInf_div_fin_neg {b : ℝ} (h : b < 0) : posInf / fin b = negInf := by
  show div posInf (fin b) = negInf
  rw [div]
  rw [if_neg (by linarith)]

theorem negInf_div_fin_nonneg {b : ℝ} (h : 0 ≤ b) : negInf / fin b = negInf := by
  show div negInf (fin b) = negInf
  rw [div]
  rw [if_pos h]

@[simp] theorem sqrt_nan : sqrt nan = nan := rfl

@[simp] theorem sqrt_posInf : sqrt posInf = posInf := rfl

@[simp] theorem sqrt_negInf : sqrt negInf = nan := rfl

theorem sqrt_fin {a : ℝ} (h : 0 ≤ a) : sqrt (fin a) = fin (Real.sqrt a) := by
  rw [sqrt]
  rw [if_neg (not_lt.mpr h)]

theorem sqrt_fin_neg {a : ℝ} (h : a < 0) : sqrt (fin a) = nan := by
  rw [sqrt]
  rw [if_pos h]

@[simp] theorem exp_nan : exp nan = nan := rfl

@[simp] theorem exp_posInf : exp posInf = posInf := rfl

@[simp] theorem exp_negInf : exp negInf = fin 0 := rfl

@[simp] theorem exp_fin (a : ℝ) : exp (fin a) = fin (Real.exp a) := rfl

@[simp] theorem ln_nan : ln nan = nan := rfl

@[simp] theorem ln_posInf : ln posInf = posInf := rfl

@[simp] theorem ln_negInf : ln negInf = nan := rfl

@[simp] theorem ln_fin_zero : ln (fin 0) = negInf := by
  rw [ln]
  rw [if_pos rfl]

theorem ln_fin_pos {a : ℝ} (h : 0 < a) : ln (fin a) = fin (Real.log a) := by
  rw [ln]
  rw [if_neg (by positivity), if_neg (by linarith)]

@[simp] theorem sin_fin (a : ℝ) : sin (fin a) = fin (Real.sin a) := rfl

@[simp] theorem cos_fin (a : ℝ) : cos (fin a) = fin (Real.cos a) := rfl

@[simp] theorem atan_fin (a : ℝ) : atan (fin a) = fin (Real.arctan a) := rfl

@[simp] theorem atan_nan : atan nan = nan := rfl

@[simp] theorem abs_nan : abs nan = nan := rfl

@[simp] theorem abs_posInf : abs posInf = posInf := rfl

@[simp] theorem abs_negInf : abs negInf = posInf := rfl

@[simp] theorem abs_fin (a : ℝ) : abs (fin a) = fin |a| := rfl

@[simp] theorem floor_nan : floor nan = nan := rfl

@[simp] theorem floor_posInf : floor posInf = posInf := rfl

@[simp] theorem floor_negInf : floor negInf = negInf := rfl

@[simp] theorem floor_fin (a : ℝ) : floor (fin a) = fin (⌊a⌋ : ℝ) := rfl

@[simp] theorem trunc_nan : trunc nan = nan := rfl

@[simp] theorem trunc_posInf : trunc posInf = posInf := rfl

@[simp] theorem trunc_negInf : trunc negInf = negInf := rfl

@[simp] theorem trunc_fin (a : ℝ) : trunc (fin a) = fin (realTrunc a) := rfl

@[simp] theorem pow_fin_zero (x : F) : pow x (fin 0) = fin 1 := by
  cases x <;> simp [pow]

theorem pow_fin_fin_of_pos {b : ℝ} (e : ℝ) (hb : 0 < b) :
    pow (fin b) (fin e) = fin (b ^ e) := by
  rw [pow]
  by_cases he : e = 0
  · rw [if_pos he, he, Real.rpow_zero]
  · rw [if_neg he, if_neg (by positivity), if_neg (by simp [not_and_or]; intro h; linarith)]

theorem pow_nan_fin {e : ℝ} (he : e ≠ 0) : pow nan (fin e) = nan := by
  rw [pow]
  rw [if_neg he]

theorem pow_fin_nan {b : ℝ} (hb : b ≠ 1) : pow (fin b) nan = nan := by
  rw [pow]
  rw [if_neg hb]

theorem pow_posInf_fin_pos {e : ℝ} (he : 0 < e) : pow posInf (fin e) = posInf := by
  rw [pow]
  rw [if_neg (by positivity), if_pos he]

theorem pow_posInf_fin_neg {e : ℝ} (he : e < 0) : pow posInf (fin e) = fin 0 := by
  rw [pow]
  rw [if_neg (by linarith), if_neg (by linarith)]

@[simp] theorem pow_nan_posInf : pow nan posInf = nan := rfl

@[simp] theorem pow_nan_negInf : pow nan negInf = nan := rfl

theorem toReal_fin (a : ℝ) : toReal (fin a) = a := rfl

theorem fin_injective : Function.Injective fin := fun a b h => by
  injection h

@[simp] theorem fin_inj {a b : ℝ} : fin a = fin b ↔ a = b :=
  ⟨fun h => by injection h, fun h => by rw [h]⟩

@[simp] theorem fin_ne_nan (a : ℝ) : fin a ≠ nan := by intro h; injection h

@[simp] theorem nan_ne_fin (a : ℝ) : nan ≠ fin a := by intro h; injection h

@[simp] theorem posInf_ne_nan : (posInf : F) ≠ nan := by intro h; injection h

@[simp] theorem negInf_ne_nan : (negInf : F) ≠ nan := by intro h; injection h

@[simp] theorem fin_ne_posInf (a : ℝ) : fin a ≠ posInf := by intro h; injection h

@[simp] theorem fin_ne_negInf (a : ℝ) : fin a ≠ negInf := by intro h; injection h

end F

namespace F

@[simp] theorem nan_ne_posInf : (nan : F) ≠ posInf := by intro h; injection h

@[simp] theorem nan_ne_negInf : (nan : F) ≠ negInf := by intro h; injection h

@[simp] theorem posInf_ne_negInf : (posInf : F) ≠ negInf := by intro h; injection h

@[simp] theorem negInf_ne_posInf : (negInf : F) ≠ posInf := by intro h; injection h

@[simp] theorem posInf_ne_fin (a : ℝ) : (posInf : F) ≠ fin a := by intro h; injection h

@[simp] theorem negInf_ne_fin (a : ℝ) : (negInf : F) ≠ fin a := by intro h; injection h

theorem fin_mul_negInf_neg {a : ℝ} (h : a < 0) : fin a * negInf = posInf := by
  show mul (fin a) negInf = posInf
  rw [mul]
  rw [if_neg (by linarith), if_neg (by linarith)]

theorem negInf_div_fin_neg {b : ℝ} (h : b < 0) : negInf / fin b = posInf := by
  show div negInf (fin b) = posInf
  rw [div]
  rw [if_neg (by linarith)]

/-- Double negation on the float model. -/
theorem neg_negF (x : F) : -(-x) = x := by
  cases x <;> simp

/-- `(-1) · m = -(1 · m)` in the float model, for every `m`. -/
theorem neg_one_mul_eq (m : F) : fin (-1) * m = -(fin 1 * m) := by
  cases m with
  | nan => simp
  | posInf =>
      rw [fin_mul_posInf_neg (by norm_num), fin_mul_posInf_pos (by norm_num)]
      rfl
  | negInf =>
      rw [fin_mul_negInf_neg (by norm_num), fin_mul_negInf_pos (by norm_num)]
      rfl
  | fin a => simp

/-- Rounding toward zero fixes exactly the integer-valued reals. -/
theorem realTrunc_eq_self_iff {r : ℝ} : realTrunc r = r ↔ IsIntR r := by
  constructor
  · intro h
    rw [realTrunc] at h
    split_ifs at h
    · exact ⟨⌊r⌋, h.symm⟩
    · exact ⟨⌈r⌉, h.symm⟩
  · rintro ⟨k, rfl⟩
    rw [realTrunc]
    split_ifs <;> simp

end F

/-- A factorial lower bound on Gamma at half-integers:
`(m+1)! ≤ Γ(m + 5/2)`. -/
theorem factorial_le_gamma_half (m : ℕ) :
    (Nat.factorial (m + 1) : ℝ) ≤ Real.Gamma ((m : ℝ) + 5 / 2) := by
  induction m with
  | zero =>
      have h12 : Real.Gamma (1/2 : ℝ) = Real.sqrt Real.pi := Real.Gamma_one_half_eq
      have h32 : Real.Gamma (3/2 : ℝ) = (1/2) * Real.sqrt Real.pi := by
        have h := Real.Gamma_add_one (by norm_num : (1/2 : ℝ) ≠ 0)
        rw [h12] at h
        rw [show (3/2 : ℝ) = 1/2 + 1 by norm_num, h]
      have h52 : Real.Gamma (5/2 : ℝ) = (3/2) * ((1/2) * Real.sqrt Real.pi) := by
        have h := Real.Gamma_add_one (by norm_num : (3/2 : ℝ) ≠ 0)
        rw [h32] at h
        rw [show (5/2 : ℝ) = 3/2 + 1 by norm_num, h]
      have hpi : (16/9 : ℝ) ≤ Real.pi := by nlinarith [Real.pi_gt_three]
      have hsqrt : (4/3 : ℝ) ≤ Real.sqrt Real.pi := by
        rw [show (4/3 : ℝ) = Real.sqrt ((4/3)^2) from (Real.sqrt_sq (by norm_num)).symm]
        apply Real.sqrt_le_sqrt
        nlinarith
      norm_num [h52]
      nlinarith
  | succ k ih =>
      have hne : ((k:ℝ) + 5/2) ≠ 0 := by positivity
      have hstep : Real.Gamma (((k:ℝ) + 5/2) + 1) = ((k:ℝ) + 5/2) * Real.Gamma ((k:ℝ) + 5/2) :=
        Real.Gamma_add_one hne
      have hfact : (Nat.factorial (k + 2) : ℝ) = ((k:ℝ) + 2) * Nat.factorial (k + 1) := by
        push_cast [Nat.factorial_succ]
        ring
      have hpos : (0:ℝ) ≤ (Nat.factorial (k + 1) : ℝ) := Nat.cast_nonneg _
      calc (Nat.factorial (k + 1 + 1) : ℝ) = ((k:ℝ) + 2) * Nat.factorial (k + 1) := hfact
        _ ≤ ((k:ℝ) + 5/2) * Real.Gamma ((k:ℝ) + 5/2) := by
            apply mul_le_mul (by linarith) ih hpos (by positivity)
        _ = Real.Gamma (((k:ℝ) + 5/2) + 1) := hstep.symm
        _ = Real.Gamma ((((k + 1) : ℕ) : ℝ) + 5/2) := by push_cast; ring_nf

set_option maxRecDepth 4096 in
/-- `Γ(180) = 179!` exceeds the largest finite double. -/
theorem maxF64_lt_gamma_180 : math.maxF64 < Real.Gamma 180 := by
  have h : Real.Gamma (((179 : ℕ) : ℝ) + 1) = (Nat.factorial 179 : ℝ) :=
    Real.Gamma_nat_eq_factorial 179
  have h2 : ((2:ℝ) ^ (1024:ℕ)) ≤ (Nat.factorial 179 : ℝ) := by
    have hn : (2 ^ 1024 : ℕ) ≤ Nat.factorial 179 := by decide
    exact_mod_cast hn
  have h3 : (0:ℝ) < 2 ^ (971:ℕ) := by positivity
  rw [show (180:ℝ) = ((179:ℕ):ℝ) + 1 by norm_num, h, math.maxF64]
  linarith

set_option maxRecDepth 4096 in
/-- `Γ(179.5) ≥ 178!` exceeds the largest finite double. -/
theorem maxF64_lt_gamma_359_half : math.maxF64 < Real.Gamma (359 / 2 : ℝ) := by
  have h := factorial_le_gamma_half 177
  rw [show ((177:ℕ):ℝ) + 5/2 = 359/2 by norm_num] at h
  have h2 : ((2:ℝ) ^ (1024:ℕ)) ≤ (Nat.factorial 178 : ℝ) := by
    have hn : (2 ^ 1024 : ℕ) ≤ Nat.factorial 178 := by decide
    exact_mod_cast hn
  have h3 : (0:ℝ) < 2 ^ (971:ℕ) := by positivity
  rw [math.maxF64]
  have h178 : (Nat.factorial (177 + 1) : ℝ) = (Nat.factorial 178 : ℝ) := by norm_num
  rw [h178] at h
  linarith

/-- At `x = +∞` the Winitzki erf evaluates `−∞·∞/∞ = NaN` inside the
exponential and returns NaN. -/
theorem erf_posInf_eval : erf F.posInf = F.nan := by
  norm_num [erf, F.fin_mul_posInf_pos, F.div_fin_fin, Real.pi_ne_zero]

/-- At `x = -∞` the Winitzki erf likewise returns NaN. -/
theorem erf_negInf_eval : erf F.negInf = F.nan := by
  norm_num [erf, F.fin_mul_posInf_pos, F.div_fin_fin, Real.pi_ne_zero]

/-- The Winitzki erf maps NaN to NaN. -/
theorem erf_nan_eval : erf F.nan = F.nan := by
  simp [erf]

/-- On a nonnegative finite argument the Winitzki erf is a finite value in
`[0, 1]`. -/
theorem erf_fin_nonneg_eval {r : ℝ} (hr : 0 ≤ r) :
    ∃ s : ℝ, erf (F.fin r) = F.fin s ∧ 0 ≤ s ∧ s ≤ 1 := by
  have hden : (0:ℝ) < 1 + 0.14 * (r * r) := by positivity
  have hnum : (0:ℝ) ≤ r * r * (4 / Real.pi + 0.14 * (r * r)) := by positivity
  set q : ℝ := -(r * r) * (4 / Real.pi + 0.14 * (r * r)) / (1 + 0.14 * (r * r)) with hq
  have hqle : q ≤ 0 := by
    rw [hq, neg_mul, neg_div]
    exact neg_nonpos.mpr (div_nonneg hnum hden.le)
  have hexp : Real.exp q ≤ 1 := Real.exp_le_one_iff.mpr hqle
  have harg : (0:ℝ) ≤ 1 - Real.exp q := by linarith
  have h1 : ¬ F.Lt (F.fin r) (F.fin 0) := by simp; linarith
  refine ⟨Real.sqrt (1 - Real.exp q), ?_, Real.sqrt_nonneg _,
    Real.sqrt_le_one.mpr (by linarith [Real.exp_pos q])⟩
  simp only [erf, h1, if_false, F.mul_fin_fin, F.neg_fin, F.exp_fin,
    F.div_fin_fin _ (ne_of_gt Real.pi_pos), F.div_fin_fin _ (ne_of_gt hden),
    F.add_fin_fin, F.sub_fin_fin]
  rw [F.sqrt_fin harg, hq]
  simp

/-- The Winitzki erf is odd on the whole float model (NaN maps to NaN, which
is fixed by negation). -/
theorem erf_odd (x : F) : erf (-x) = -(erf x) := by
  cases x with
  | nan => rw [show (-F.nan : F) = F.nan from rfl, erf_nan_eval]; rfl
  | posInf =>
      rw [show (-F.posInf : F) = F.negInf from rfl, erf_negInf_eval, erf_posInf_eval]; rfl
  | negInf =>
      rw [show (-F.negInf : F) = F.posInf from rfl, erf_posInf_eval, erf_negInf_eval]; rfl
  | fin r =>
      rcases lt_trichotomy r 0 with hr | rfl | hr
      · have h1 : F.Lt (F.fin r) (F.fin 0) := by simpa using hr
        have h2 : ¬ F.Lt (F.fin (-r)) (F.fin 0) := by simp; linarith
        rw [F.neg_fin]
        simp only [erf, h1, h2, if_true, if_false]
        simp only [F.neg_fin, neg_neg]
        rw [F.neg_one_mul_eq, F.neg_negF]
      · have h0 : erf (F.fin 0) = F.fin 0 := by
          norm_num [erf, F.div_fin_fin, Real.pi_ne_zero, F.sqrt_fin,
            Real.exp_zero, Real.sqrt_zero]
        norm_num [h0]
      · have h1 : F.Lt (F.fin (-r)) (F.fin 0) := by simp; linarith
        have h2 : ¬ F.Lt (F.fin r) (F.fin 0) := by simp; linarith
        rw [F.neg_fin]
        simp only [erf, h1, h2, if_true, if_false]
        simp only [F.neg_fin, neg_neg]
        exact F.neg_one_mul_eq _

/-- `gamma::calculate` returns `None` exactly on the arguments flagged by
`gamma_undefined_for`. -/
theorem gamma.calculate_eq_none_iff (x : F) :
    gamma.calculate x = none ↔ gamma.gamma_undefined_for x := by
  rw [gamma.calculate]
  split_ifs with h h2 <;> simp [h]

namespace math

@[simp] theorem erf_nan : erf F.nan = F.nan := rfl

@[simp] theorem erf_posInf : erf F.posInf = F.fin 1 := rfl

@[simp] theorem erf_negInf : erf F.negInf = F.fin (-1) := rfl

@[simp] theorem tgamma_nan : tgamma F.nan = F.nan := rfl

@[simp] theorem tgamma_posInf : tgamma F.posInf = F.posInf := rfl

/-- The host gamma on a positive argument whose value does not overflow. -/
theorem tgamma_fin_pos {r : ℝ} (hr : 0 < r) (hov : Real.Gamma r ≤ maxF64) :
    tgamma (F.fin r) = F.fin (Real.Gamma r) := by
  have hpos : 0 < Real.Gamma r := Real.Gamma_pos_of_pos hr
  have hmax : 0 < maxF64 := by norm_num [maxF64]
  rw [tgamma]
  rw [if_neg (by positivity), if_neg (by rintro ⟨h, -⟩; linarith),
    if_neg (not_lt.mpr hov), if_neg (by push_neg; nlinarith)]

/-- The host gamma overflows to `+∞` on a positive argument whose value
exceeds the largest finite double. -/
theorem tgamma_fin_overflow {r : ℝ} (hr : 0 < r) (hov : maxF64 < Real.Gamma r) :
    tgamma (F.fin r) = F.posInf := by
  rw [tgamma]
  rw [if_neg (by positivity), if_neg (by rintro ⟨h, -⟩; linarith), if_pos hov]

end math

namespace F

theorem not_le_zero_of_pos {x : F} (h : Lt (fin 0) x) : ¬ Le x (fin 0) := by
  cases x with
  | nan => simp at h
  | posInf => simp
  | negInf => simp at h
  | fin s => simp at h ⊢; linarith

theorem not_isNaN_of_pos {x : F} (h : Lt (fin 0) x) : ¬ x.isNaN := by
  cases x <;> simp_all

end F

/-- NaN propagation through `Normal::ppf` when the probability argument is
NaN (the guard does not test `p.is_nan()`; the NaN flows through the far-tail
branch of AS 241 instead). -/
theorem Normal.ppf_nan_p (mean sd : F) : Normal.ppf F.nan mean sd = F.nan := by
  by_cases hg : F.Le sd (F.fin 0) ∨ mean.isNaN ∨ sd.isNaN
  · simp only [Normal.ppf]
    rw [if_pos]
    rcases hg with h | h | h
    · exact Or.inr (Or.inr (Or.inl h))
    · exact Or.inr (Or.inr (Or.inr (Or.inl h)))
    · exact Or.inr (Or.inr (Or.inr (Or.inr h)))
  · push_neg at hg
    obtain ⟨h1, h2, h3⟩ := hg
    simp [Normal.ppf, Normal.ppfNum, Normal.ppfDen, h1, h2, h3]

/-!
## Claims
-/

/-- **C1**: `Normal::ppf(p, mean, std_dev)` returns NaN whenever `p < 0`,
`p > 1`, `std_dev ≤ 0`, or `p`, `mean`, or `std_dev` is NaN; and for
`std_dev > 0` with non-NaN `mean` it returns `−∞` at `p = 0` and `+∞` at
`p = 1`. -/
theorem normal_ppf_domain_and_boundaries (p mean sd : F) :
    ((F.Lt p (F.fin 0) ∨ F.Lt (F.fin 1) p ∨ F.Le sd (F.fin 0)
        ∨ p.isNaN ∨ mean.isNaN ∨ sd.isNaN) → Normal.ppf p mean sd = F.nan)
    ∧ (F.Lt (F.fin 0) sd → ¬ mean.isNaN →
        Normal.ppf (F.fin 0) mean sd = F.negInf
        ∧ Normal.ppf (F.fin 1) mean sd = F.posInf) := by
  constructor
  · intro h
    rcases h with h | h | h | h | h | h
    · simp only [Normal.ppf]; rw [if_pos (Or.inl h)]
    · simp only [Normal.ppf]; rw [if_pos (Or.inr (Or.inl h))]
    · simp only [Normal.ppf]; rw [if_pos (Or.inr (Or.inr (Or.inl h)))]
    · cases p with
      | nan => exact Normal.ppf_nan_p mean sd
      | posInf => simp at h
      | negInf => simp at h
      | fin a => simp at h
    · simp only [Normal.ppf]; rw [if_pos (Or.inr (Or.inr (Or.inr (Or.inl h))))]
    · simp only [Normal.ppf]; rw [if_pos (Or.inr (Or.inr (Or.inr (Or.inr h))))]
  · intro hsd hm
    have h1 := F.not_le_zero_of_pos hsd
    have h2 := F.not_isNaN_of_pos hsd
    constructor
    · simp [Normal.ppf, h1, h2, hm]
    · simp [Normal.ppf, h1, h2, hm]

/-- Witness for C1 at concrete inputs. -/
theorem normal_ppf_domain_and_boundaries_witness :
    Normal.ppf (F.fin 2) (F.fin 0) (F.fin 1) = F.nan
    ∧ Normal.ppf (F.fin 0) (F.fin 0) (F.fin 1) = F.negInf
    ∧ Normal.ppf (F.fin 1) (F.fin 0) (F.fin 1) = F.posInf := by
  refine ⟨(normal_ppf_domain_and_boundaries (F.fin 2) (F.fin 0) (F.fin 1)).1
      (Or.inr (Or.inl (by norm_num))), ?_, ?_⟩
  · exact ((normal_ppf_domain_and_boundaries (F.fin 0) (F.fin 0) (F.fin 1)).2
      (by norm_num) (by simp)).1
  · exact ((normal_ppf_domain_and_boundaries (F.fin 1) (F.fin 0) (F.fin 1)).2
      (by norm_num) (by simp)).2

/-- **C10**: for every degrees-of-freedom value `n` with `0 < n < 1`,
`StudentsT::cdf(x, n)` is NaN for every `x` and `StudentsT::ppf(p, n)` is NaN
for every `p`: both guards reject all `n < 1`, a stricter domain than `pdf`'s
`n > 0`. -/
theorem studentsT_cdf_ppf_reject_small_n (n : F)
    (_h0 : F.Lt (F.fin 0) n) (h1 : F.Lt n (F.fin 1)) :
    (∀ x, StudentsT.cdf x n = F.nan) ∧ (∀ p, StudentsT.ppf p n = F.nan) := by
  refine ⟨fun x => ?_, fun p => ?_⟩
  · simp only [StudentsT.cdf]; rw [if_pos (Or.inr (Or.inr h1))]
  · simp only [StudentsT.ppf]; rw [if_pos (Or.inr h1)]

/-- Witness for C10 at `n = 0.5`. -/
theorem studentsT_cdf_ppf_reject_small_n_witness :
    StudentsT.cdf (F.fin 0) (F.fin 0.5) = F.nan
    ∧ StudentsT.ppf (F.fin 0.25) (F.fin 0.5) = F.nan := by
  have h := studentsT_cdf_ppf_reject_small_n (F.fin 0.5) (by norm_num) (by norm_num)
  exact ⟨h.1 _, h.2 _⟩

/-- **C2**: with `n = +∞`, `StudentsT::pdf(x, n)` equals `Normal::pdf(x,0,1)`,
`StudentsT::cdf(x, n)` equals `Normal::cdf(x,0,1)`, and `StudentsT::ppf(p, n)`
equals `Normal::ppf(p,0,1)` exactly, for every `x` and every `p` (in
particular every `p ∈ [0,1]`): the infinite case is special-cased, not
computed from the gamma-based formula. -/
theorem studentsT_inf_matches_normal (x p : F) :
    StudentsT.pdf x F.posInf = Normal.pdf x (F.fin 0) (F.fin 1)
    ∧ StudentsT.cdf x F.posInf = Normal.cdf x (F.fin 0) (F.fin 1)
    ∧ StudentsT.ppf p F.posInf = Normal.ppf p (F.fin 0) (F.fin 1) := by
  have hs2 : (0:ℝ) ≤ Real.sqrt 2 := Real.sqrt_nonneg 2
  refine ⟨?_, ?_, ?_⟩
  · simp [StudentsT.pdf]
  · cases x with
    | nan => simp [StudentsT.cdf, Normal.cdf]
    | posInf =>
        rw [StudentsT.cdf]
        norm_num [Normal.cdf, F.posInf_div_fin_nonneg hs2]
    | negInf =>
        rw [StudentsT.cdf]
        norm_num [Normal.cdf, F.negInf_div_fin_nonneg hs2]
    | fin r => simp [StudentsT.cdf]
  · cases p with
    | nan => simp [StudentsT.ppf, Normal.ppf_nan_p]
    | posInf => simp [StudentsT.ppf, Normal.ppf]
    | negInf => simp [StudentsT.ppf, Normal.ppf]
    | fin r =>
        by_cases hr0 : r < 0
        · rw [StudentsT.ppf, if_pos (Or.inl (by simp; intro h; linarith))]
          rw [Normal.ppf, if_pos (Or.inl (by simpa using hr0))]
        · by_cases hr1 : 1 < r
          · rw [StudentsT.ppf, if_pos (Or.inl (by simp; intro h; linarith))]
            rw [Normal.ppf, if_pos (Or.inr (Or.inl (by simpa using hr1)))]
          · push_neg at hr0 hr1
            rw [StudentsT.ppf, if_neg (by simp [hr0, hr1])]
            simp

/-- **C3 (counterexample)**: `gamma::calculate(-∞)` returns `None`
(`-∞ < 0.5` and `(-∞).trunc() == -∞` both hold), yet `-∞` is not zero and not
a negative whole number, so the claimed iff fails at `x = -∞`. -/
theorem gamma_calculate_negInf_counterexample :
    gamma.calculate F.negInf = none ∧ ¬ IsZeroOrNegWhole F.negInf := by
  constructor
  · rw [gamma.calculate, if_pos]
    exact ⟨by simp, by simp⟩
  · rintro (h | ⟨r, h, -, -⟩) <;> simp at h

/-- **C3 (amended)**: `gamma::calculate(x)` returns `None` iff `x` is zero, a
negative whole number, or negative infinity; every other argument (NaN and
`+∞` included) yields `Some` value.  (The claim as stated omits `-∞`, which
also satisfies the code's pole test `x < 0.5 && x.trunc() == x`.) -/
theorem gamma_calculate_none_iff (x : F) :
    gamma.calculate x = none ↔ (IsZeroOrNegWhole x ∨ x = F.negInf) := by
  rw [gamma.calculate_eq_none_iff]
  cases x with
  | nan => simp [gamma.gamma_undefined_for, IsZeroOrNegWhole]
  | posInf => simp [gamma.gamma_undefined_for, IsZeroOrNegWhole]
  | negInf => simp [gamma.gamma_undefined_for, IsZeroOrNegWhole]
  | fin r =>
      simp only [gamma.gamma_undefined_for, F.trunc_fin, F.ieeeEq_fin_fin,
        F.lt_fin_fin, IsZeroOrNegWhole, F.fin_inj, F.fin_ne_negInf, or_false,
        exists_eq_left']
      rw [F.realTrunc_eq_self_iff]
      constructor
      · rintro ⟨hlt, k, rfl⟩
        rcases lt_trichotomy (k : ℝ) 0 with h | h | h
        · exact Or.inr ⟨h, k, rfl⟩
        · exact Or.inl h
        · exfalso
          have hk1 : (1 : ℤ) ≤ k := by exact_mod_cast h
          have : (1 : ℝ) ≤ (k : ℝ) := by exact_mod_cast hk1
          norm_num at hlt
          linarith
      · rintro (rfl | ⟨hneg, hint⟩)
        · exact ⟨by norm_num, 0, by norm_num⟩
        · exact ⟨by norm_num; linarith, hint⟩

/-- **C4 (counterexample)**: the claimed boundary identity
`cdf(−∞, mean, std_dev) = 0` for every `mean` and every `std_dev > 0` fails at
`std_dev = +∞`: there `(−∞ − 0)/(∞·√2) = −∞/∞ = NaN`, so the result is NaN,
not 0. -/
theorem normal_cdf_boundary_counterexample :
    F.Lt (F.fin 0) F.posInf
    ∧ Normal.cdf F.negInf (F.fin 0) F.posInf = F.nan
    ∧ Normal.cdf F.negInf (F.fin 0) F.posInf ≠ F.fin 0 := by
  have h : Normal.cdf F.negInf (F.fin 0) F.posInf = F.nan := by
    norm_num [Normal.cdf,
      F.posInf_mul_fin_pos (Real.sqrt_pos.mpr (by norm_num : (0:ℝ) < 2))]
  exact ⟨by simp, h, by rw [h]; simp⟩

/-- **C4 (amended)**: for every `std_dev` that is not `≤ 0`, `Normal::cdf`
computes `0.5·(1 + erf((x − mean)/(std_dev·√2)))` with the host erf; the
boundary identities `cdf(−∞) = 0` and `cdf(+∞) = 1` hold for every *finite*
`mean` and every *finite* `std_dev > 0` (at `std_dev = +∞` or infinite `mean`
the argument of erf degenerates to NaN); and the result is NaN whenever
`std_dev ≤ 0` or any input is NaN. -/
theorem normal_cdf_formula_boundaries_nan (x mean sd : F) :
    (¬ F.Le sd (F.fin 0) → Normal.cdf x mean sd
        = F.fin 0.5 * (F.fin 1 + math.erf ((x - mean) / (sd * F.fin (Real.sqrt 2)))))
    ∧ (∀ mr sr : ℝ, 0 < sr →
        Normal.cdf F.negInf (F.fin mr) (F.fin sr) = F.fin 0
        ∧ Normal.cdf F.posInf (F.fin mr) (F.fin sr) = F.fin 1)
    ∧ ((F.Le sd (F.fin 0) ∨ x.isNaN ∨ mean.isNaN ∨ sd.isNaN) →
        Normal.cdf x mean sd = F.nan) := by
  have hsqrt2 : (0:ℝ) < Real.sqrt 2 := Real.sqrt_pos.mpr (by norm_num)
  refine ⟨fun h => by rw [Normal.cdf, if_neg h], fun mr sr hsr => ?_, fun h => ?_⟩
  · have hprod : (0:ℝ) ≤ sr * Real.sqrt 2 := by positivity
    constructor
    · rw [Normal.cdf, if_neg (by simp; linarith)]
      norm_num [F.negInf_div_fin_nonneg hprod]
    · rw [Normal.cdf, if_neg (by simp; linarith)]
      norm_num [F.posInf_div_fin_nonneg hprod]
  · rcases h with h | h | h | h
    · rw [Normal.cdf, if_pos h]
    · cases x with
      | nan =>
          by_cases hg : F.Le sd (F.fin 0)
          · rw [Normal.cdf, if_pos hg]
          · rw [Normal.cdf, if_neg hg]; simp
      | posInf => simp at h
      | negInf => simp at h
      | fin a => simp at h
    · cases mean with
      | nan =>
          by_cases hg : F.Le sd (F.fin 0)
          · rw [Normal.cdf, if_pos hg]
          · rw [Normal.cdf, if_neg hg]; simp
      | posInf => simp at h
      | negInf => simp at h
      | fin a => simp at h
    · cases sd with
      | nan => rw [Normal.cdf, if_neg (by simp)]; simp
      | posInf => simp at h
      | negInf => simp at h
      | fin a => simp at h

/-- Witness for C4 (amended) at concrete inputs. -/
theorem normal_cdf_formula_boundaries_nan_witness :
    Normal.cdf (F.fin 0) (F.fin 0) (F.fin 1)
      = F.fin 0.5 * (F.fin 1 + math.erf ((F.fin 0 - F.fin 0) / (F.fin 1 * F.fin (Real.sqrt 2))))
    ∧ Normal.cdf F.negInf (F.fin 0) (F.fin 1) = F.fin 0
    ∧ Normal.cdf F.posInf (F.fin 0) (F.fin 1) = F.fin 1
    ∧ Normal.cdf (F.fin 0) (F.fin 0) (F.fin (-1)) = F.nan :=
  ⟨(normal_cdf_formula_boundaries_nan (F.fin 0) (F.fin 0) (F.fin 1)).1 (by norm_num),
   ((normal_cdf_formula_boundaries_nan (F.fin 0) (F.fin 0) (F.fin 1)).2.1 0 1
      (by norm_num)).1,
   ((normal_cdf_formula_boundaries_nan (F.fin 0) (F.fin 0) (F.fin 1)).2.1 0 1
      (by norm_num)).2,
   (normal_cdf_formula_boundaries_nan (F.fin 0) (F.fin 0) (F.fin (-1))).2.2
      (Or.inl (by norm_num))⟩

/-- **C5 (counterexample)**: at `x = 0`, `n = 359` — a large finite positive
`n` with non-NaN inputs — `StudentsT::pdf` returns NaN: the host `tgamma`
overflows to `+∞` at both `180` and `179.5` (their gamma values exceed the
largest finite double), and `∞/(√(359π)·∞) = ∞/∞ = NaN`.  This refutes both
the "exactly" and the "non-NaN for every large finite n" parts of the
claim. -/
theorem studentsT_pdf_overflow_counterexample :
    StudentsT.pdf (F.fin 0) (F.fin 359) = F.nan
    ∧ F.Lt (F.fin 0) (F.fin 359) ∧ ¬ (F.fin 0).isNaN ∧ ¬ (F.fin 359).isNaN := by
  have h180 : math.tgamma (F.fin 180) = F.posInf :=
    math.tgamma_fin_overflow (by norm_num) maxF64_lt_gamma_180
  have h1795 : math.tgamma (F.fin (359 / 2)) = F.posInf :=
    math.tgamma_fin_overflow (by norm_num) maxF64_lt_gamma_359_half
  refine ⟨?_, by norm_num, by simp, by simp⟩
  rw [StudentsT.pdf, if_neg (by norm_num), if_neg (by simp)]
  norm_num [F.div_fin_fin, h180, h1795,
    F.sqrt_fin (by positivity : (0:ℝ) ≤ 359 * Real.pi),
    F.fin_mul_posInf_pos (Real.sqrt_pos.mpr (by positivity : (0:ℝ) < 359 * Real.pi)),
    F.fin_mul_posInf_pos
      (show (0:ℝ) < Real.sqrt 359 * Real.sqrt Real.pi by positivity)]

/-- **C5 (amended)**: `StudentsT::pdf(x, n)` returns NaN when `n ≤ 0` or an
input is NaN; and for every finite `n > 0` and finite `x` such that the host
gamma does not overflow at `(n+1)/2` and `n/2`, the result is the (non-NaN)
real number `Γ((n+1)/2) / (√(nπ)·Γ(n/2)) · (1 + x²/n)^(−(n+1)/2)`, while at
`x = ±∞` (the remaining non-NaN arguments) the result is the real number 0.
(For
large finite `n` — roughly `n ≥ 344` — both gamma values overflow the double
range and the quotient `∞/∞` makes the result NaN, so the claim's "every
large finite n" clause fails; see the counterexample.) -/
theorem studentsT_pdf_nan_and_formula (x n : F) :
    ((n.isNaN ∨ F.Le n (F.fin 0) ∨ x.isNaN) → StudentsT.pdf x n = F.nan)
    ∧ (∀ xr nr : ℝ, x = F.fin xr → n = F.fin nr → 0 < nr →
        Real.Gamma ((nr + 1) / 2) ≤ math.maxF64 → Real.Gamma (nr / 2) ≤ math.maxF64 →
        StudentsT.pdf x n = F.fin (Real.Gamma ((nr + 1) / 2)
          / (Real.sqrt (nr * Real.pi) * Real.Gamma (nr / 2))
          * (1 + xr * xr / nr) ^ (-(nr + 1) / 2)))
    ∧ (∀ nr : ℝ, n = F.fin nr → 0 < nr →
        Real.Gamma ((nr + 1) / 2) ≤ math.maxF64 → Real.Gamma (nr / 2) ≤ math.maxF64 →
        (x = F.posInf ∨ x = F.negInf) → StudentsT.pdf x n = F.fin 0) := by
  refine ⟨?_, ?_, ?_⟩
  · intro h
    rcases h with h | h | h
    · rw [StudentsT.pdf, if_pos (Or.inl h)]
    · rw [StudentsT.pdf, if_pos (Or.inr h)]
    · -- x is NaN
      cases x with
      | posInf => simp at h
      | negInf => simp at h
      | fin a => simp at h
      | nan =>
          by_cases hg : n.isNaN ∨ F.Le n (F.fin 0)
          · rw [StudentsT.pdf, if_pos hg]
          · cases n with
            | nan => simp at hg
            | negInf => simp at hg
            | posInf =>
                rw [StudentsT.pdf, if_neg hg, if_pos (by simp)]
                have he : Real.exp 1 ≠ 1 := by
                  have := Real.exp_one_gt_d9
                  intro hcontra
                  rw [hcontra] at this
                  norm_num at this
                simp [Normal.pdf, F.pow_fin_nan he]
            | fin nr =>
                have hnr : 0 < nr := by
                  push_neg at hg
                  simpa using lt_of_not_le (by simpa using hg.2)
                rw [StudentsT.pdf, if_neg hg, if_neg (by simp)]
                have hexp : -(nr + 1) / 2 ≠ 0 := by
                  intro hc
                  rw [div_eq_zero_iff] at hc
                  rcases hc with hc | hc <;> [linarith [hnr]; norm_num at hc]
                rw [show F.fin nr + F.fin 1 = F.fin (nr + 1) from rfl,
                  show -(F.fin (nr + 1)) = F.fin (-(nr + 1)) from rfl,
                  F.div_fin_fin (-(nr + 1)) (by norm_num : (2:ℝ) ≠ 0),
                  show F.nan * F.nan = F.nan from rfl, F.nan_div,
                  F.add_nan, F.pow_nan_fin hexp, F.mul_nan]
  · rintro xr nr rfl rfl hnr hov1 hov2
    have hg1 : (0:ℝ) < (nr + 1) / 2 := by linarith
    have hg2 : (0:ℝ) < nr / 2 := by linarith
    have ht1 : math.tgamma (F.fin ((nr + 1) / 2)) = F.fin (Real.Gamma ((nr + 1) / 2)) :=
      math.tgamma_fin_pos hg1 hov1
    have ht2 : math.tgamma (F.fin (nr / 2)) = F.fin (Real.Gamma (nr / 2)) :=
      math.tgamma_fin_pos hg2 hov2
    have hsp : (0:ℝ) < Real.sqrt (nr * Real.pi) :=
      Real.sqrt_pos.mpr (mul_pos hnr Real.pi_pos)
    have hga : (0:ℝ) < Real.Gamma (nr / 2) := Real.Gamma_pos_of_pos hg2
    have hbase : (0:ℝ) < 1 + xr * xr / nr := by
      have hq : (0:ℝ) ≤ xr * xr / nr := div_nonneg (mul_self_nonneg xr) hnr.le
      linarith
    rw [StudentsT.pdf, if_neg (by simp; linarith), if_neg (by simp)]
    rw [show F.fin nr + F.fin 1 = F.fin (nr + 1) from rfl,
      F.div_fin_fin (nr + 1) (by norm_num : (2:ℝ) ≠ 0),
      F.div_fin_fin nr (by norm_num : (2:ℝ) ≠ 0), ht1, ht2,
      show F.fin nr * F.fin Real.pi = F.fin (nr * Real.pi) from rfl,
      F.sqrt_fin (mul_pos hnr Real.pi_pos).le,
      show F.fin (Real.sqrt (nr * Real.pi)) * F.fin (Real.Gamma (nr / 2))
        = F.fin (Real.sqrt (nr * Real.pi) * Real.Gamma (nr / 2)) from rfl,
      F.div_fin_fin _ (ne_of_gt (mul_pos hsp hga))]
    rw [show F.fin xr * F.fin xr = F.fin (xr * xr) from rfl,
      F.div_fin_fin (xr * xr) (ne_of_gt hnr),
      show F.fin 1 + F.fin (xr * xr / nr) = F.fin (1 + xr * xr / nr) from rfl,
      show -(F.fin (nr + 1)) = F.fin (-(nr + 1)) from rfl,
      F.div_fin_fin (-(nr + 1)) (by norm_num : (2:ℝ) ≠ 0),
      F.pow_fin_fin_of_pos _ hbase]
    rfl
  · rintro nr rfl hnr hov1 hov2 hx
    have hg1 : (0:ℝ) < (nr + 1) / 2 := by linarith
    have hg2 : (0:ℝ) < nr / 2 := by linarith
    have ht1 : math.tgamma (F.fin ((nr + 1) / 2)) = F.fin (Real.Gamma ((nr + 1) / 2)) :=
      math.tgamma_fin_pos hg1 hov1
    have ht2 : math.tgamma (F.fin (nr / 2)) = F.fin (Real.Gamma (nr / 2)) :=
      math.tgamma_fin_pos hg2 hov2
    have hsp : (0:ℝ) < Real.sqrt (nr * Real.pi) :=
      Real.sqrt_pos.mpr (mul_pos hnr Real.pi_pos)
    have hga : (0:ℝ) < Real.Gamma (nr / 2) := Real.Gamma_pos_of_pos hg2
    have hexpneg : -(nr + 1) / 2 < 0 := by
      apply div_neg_of_neg_of_pos (by linarith) (by norm_num)
    have hxx : x * x = F.posInf := by
      rcases hx with rfl | rfl
      · rfl
      · rfl
    rw [StudentsT.pdf, if_neg (by simp; linarith), if_neg (by simp)]
    rw [show F.fin nr + F.fin 1 = F.fin (nr + 1) from rfl,
      F.div_fin_fin (nr + 1) (by norm_num : (2:ℝ) ≠ 0),
      F.div_fin_fin nr (by norm_num : (2:ℝ) ≠ 0), ht1, ht2,
      show F.fin nr * F.fin Real.pi = F.fin (nr * Real.pi) from rfl,
      F.sqrt_fin (mul_pos hnr Real.pi_pos).le,
      show F.fin (Real.sqrt (nr * Real.pi)) * F.fin (Real.Gamma (nr / 2))
        = F.fin (Real.sqrt (nr * Real.pi) * Real.Gamma (nr / 2)) from rfl,
      F.div_fin_fin _ (ne_of_gt (mul_pos hsp hga)),
      hxx, F.posInf_div_fin_nonneg hnr.le, F.fin_add_posInf,
      show -(F.fin (nr + 1)) = F.fin (-(nr + 1)) from rfl,
      F.div_fin_fin (-(nr + 1)) (by norm_num : (2:ℝ) ≠ 0),
      F.pow_posInf_fin_neg hexpneg]
    norm_num

/-- Witness for C5 (amended) at `n = 1` (where `Γ(1) = 1` and
`Γ(1/2) = √π` stay far below the double range), at `n = -1` for the NaN
guard, and at `x = +∞` for the infinite-argument case. -/
theorem studentsT_pdf_nan_and_formula_witness :
    StudentsT.pdf (F.fin 0) (F.fin (-1)) = F.nan
    ∧ StudentsT.pdf (F.fin 0) (F.fin 1) = F.fin (Real.Gamma ((1 + 1) / 2)
        / (Real.sqrt (1 * Real.pi) * Real.Gamma (1 / 2))
        * (1 + 0 * 0 / 1) ^ (-((1:ℝ) + 1) / 2))
    ∧ StudentsT.pdf F.posInf (F.fin 1) = F.fin 0 := by
  have hmax2 : (2:ℝ) ≤ math.maxF64 := by
    rw [math.maxF64]
    have h1 : (2:ℝ) ^ (971:ℕ) + 2 ≤ 2 ^ (1024:ℕ) := by
      have h2 : (2:ℝ) ^ (1023:ℕ) + 2 ^ (1023:ℕ) = 2 ^ (1024:ℕ) := by ring
      have h3 : (2:ℝ) ^ (971:ℕ) ≤ 2 ^ (1023:ℕ) :=
        pow_le_pow_right₀ (by norm_num) (by norm_num)
      nlinarith [pow_pos (by norm_num : (0:ℝ) < 2) 1023,
        pow_pos (by norm_num : (0:ℝ) < 2) 971]
    linarith
  have hb1 : Real.Gamma (((1:ℝ) + 1) / 2) ≤ math.maxF64 := by
    rw [show ((1:ℝ) + 1) / 2 = 1 by norm_num, Real.Gamma_one]
    linarith
  have hb2 : Real.Gamma ((1:ℝ) / 2) ≤ math.maxF64 := by
    rw [Real.Gamma_one_half_eq]
    have hs : Real.sqrt Real.pi ≤ 2 := by
      rw [show (2:ℝ) = Real.sqrt 4 by
        rw [show (4:ℝ) = 2^2 by norm_num, Real.sqrt_sq (by norm_num)]]
      exact Real.sqrt_le_sqrt (by nlinarith [Real.pi_le_four])
    linarith
  exact ⟨(studentsT_pdf_nan_and_formula (F.fin 0) (F.fin (-1))).1
      (Or.inr (Or.inl (by norm_num))),
    (studentsT_pdf_nan_and_formula (F.fin 0) (F.fin 1)).2.1 0 1 rfl rfl
      (by norm_num) hb1 hb2,
    (studentsT_pdf_nan_and_formula F.posInf (F.fin 1)).2.2 1 rfl
      (by norm_num) hb1 hb2 (Or.inl rfl)⟩

/-- **C6 (counterexample)**: at `x = +∞` the Winitzki erf returns NaN — inside
the exponential, `−x²·(4/π + a·x²)/(1 + a·x²)` evaluates to `−∞·∞/∞ = NaN` —
so its value does not lie in `[-1, 1]` there, contradicting the claim's
"including plus or minus infinity". -/
theorem erf_unbounded_at_posInf_counterexample :
    erf F.posInf = F.nan
    ∧ ¬ (F.Le (F.fin (-1)) (erf F.posInf) ∧ F.Le (erf F.posInf) (F.fin 1)) := by
  refine ⟨erf_posInf_eval, ?_⟩
  rw [erf_posInf_eval]
  rintro ⟨h, -⟩
  simp at h

/-- **C6 (amended)**: the Winitzki erf is an odd function on the whole float
model (`erf(-x) = -erf(x)`, NaN included), and its value is a real number in
`[-1, 1]` for every *finite* argument; at `±∞` the result is NaN rather than
`±1` (and under IEEE arithmetic the same `∞/∞` pattern already appears for
finite `|x|` large enough that `x²` overflows, which the exact-arithmetic
model does not capture). -/
theorem erf_odd_and_bounded :
    (∀ x : F, erf (-x) = -(erf x))
    ∧ (∀ r : ℝ, ∃ s : ℝ, erf (F.fin r) = F.fin s ∧ -1 ≤ s ∧ s ≤ 1) := by
  refine ⟨erf_odd, fun r => ?_⟩
  rcases le_or_lt 0 r with hr | hr
  · obtain ⟨s, hs, h0, h1⟩ := erf_fin_nonneg_eval hr
    exact ⟨s, hs, by linarith, h1⟩
  · obtain ⟨s, hs, h0, h1⟩ := erf_fin_nonneg_eval (by linarith : (0:ℝ) ≤ -r)
    refine ⟨-s, ?_, by linarith, by linarith⟩
    have hodd := erf_odd (F.fin (-r))
    rw [F.neg_fin, neg_neg] at hodd
    rw [hodd, hs, F.neg_fin]

/-- **C7**: `inverse_erf(1)` returns `+∞` and `inverse_erf(-1)` returns `-∞`
(not NaN, not an error): `ln(1 − 1) = −∞` propagates through the Winitzki
formula to an infinity of the correct sign. -/
theorem inverse_erf_at_one : inverse_erf (F.fin 1) = F.posInf ∧
    inverse_erf (F.fin (-1)) = F.negInf := by
  constructor
  · norm_num [inverse_erf, F.fin_mul_negInf_pos, F.fin_mul_posInf_pos,
      F.negInf_div_fin_nonneg, F.div_fin_fin, Real.pi_pos, Real.pi_ne_zero,
      Real.pi_pos.le, mul_pos Real.pi_pos]
  · norm_num [inverse_erf, F.fin_mul_negInf_pos, F.fin_mul_posInf_pos,
      F.fin_mul_posInf_neg, F.negInf_div_fin_nonneg, F.div_fin_fin,
      Real.pi_pos, Real.pi_ne_zero, Real.pi_pos.le, mul_pos Real.pi_pos]

